import Mathlib

/-!
# Verification of the data_ingestion pipeline specification

This file gives a shallow embedding of the data model and operations of the
`data_ingestion` repository (Nuremberg-number allocation, content hashing and
duplicate detection, metadata validation, crosswalk reconciliation,
relationship commitment, ingestion-job bookkeeping, retrieval merging and
answer synthesis) together with proofs of the specified properties.

The repository ships the frontend (TypeScript), configuration
(`src/config/app_config.yaml`, `src/config/azure_llm_config.yaml`) and design
documents; the backend pipeline modules themselves (`processing/transformation/
nuremberg_numbering.py`, `processing/validation/*`, storage connectors) are not
part of the source tree.  Definitions for those components are therefore
modelled from the specification text, as indicated in their doc comments;
configuration values and frontend data shapes are transcribed from the files
that are present.
-/

namespace DataIngestion

/-! ## Configuration (transcribed from `src/config/app_config.yaml`) -/

/-- `processing.nuremberg_numbering` section of `app_config.yaml` (lines 159-162). -/
structure NurembergNumberingConfig where
  enabled : Bool
  prefix_pattern : String
  conflict_resolution : String
deriving DecidableEq

/-- The shipped `processing.nuremberg_numbering` configuration. -/
def nurembergNumberingConfig : NurembergNumberingConfig :=
  { enabled := true
    prefix_pattern := "{source_type}-{year}-{sequence}"
    conflict_resolution := "increment" }

/-- `validation.metadata` section of `app_config.yaml` (lines 214-222). -/
structure MetadataValidationConfig where
  required_fields : List String
  max_file_size_mb : Nat
  validate_relationships : Bool
deriving DecidableEq

/-- The shipped `validation.metadata` configuration. -/
def metadataValidationConfig : MetadataValidationConfig :=
  { required_fields := ["title", "source", "date", "document_type", "nuremberg_number"]
    max_file_size_mb := 50
    validate_relationships := true }

/-- `validation.crosswalk` section of `app_config.yaml` (lines 224-227). -/
structure CrosswalkConfig where
  enabled : Bool
  validate_bidirectional : Bool
  max_depth : Nat
deriving DecidableEq

/-- The shipped `validation.crosswalk` configuration. -/
def crosswalkConfig : CrosswalkConfig :=
  { enabled := true, validate_bidirectional := true, max_depth := 3 }

/-- `processing.standardization.controlled_vocabularies.sources` of
`app_config.yaml` (lines 178-183): the fixed value set a document's source
field is checked against. -/
def controlledSources : List String :=
  ["federal_register", "far_dfars", "iso", "ansi", "nist"]

/-- `processing.standardization.controlled_vocabularies.document_types` of
`app_config.yaml` (lines 173-177). -/
def controlledDocumentTypes : List String :=
  ["regulation", "standard", "guidance", "policy"]

/-- `synthesis` section of `src/config/azure_llm_config.yaml` (lines 35-39). -/
structure SynthesisConfig where
  max_summary_length : Nat
  max_key_points : Nat
  include_metadata : Bool
  include_references : Bool
deriving DecidableEq

/-- The shipped synthesis settings of `azure_llm_config.yaml`. -/
def synthesisConfig : SynthesisConfig :=
  { max_summary_length := 1000
    max_key_points := 5
    include_metadata := true
    include_references := true }

/-! ## Decimal rendering and the Nuremberg ID format

Modelled from the spec: the backend module `nuremberg_numbering.py` is not in
the source tree.  The spec fixes the rendered form: "`{source_type}-{year}-
{sequence}`, sequence zero-padded per configured width" (§6), matching the
`prefix_pattern` in `app_config.yaml`; the worked example `far_dfars-2024-
000001` (§8) fixes the pad width at 6. -/

/-- One decimal digit as a character. -/
def digitChar : Nat → Char
  | 0 => '0' | 1 => '1' | 2 => '2' | 3 => '3' | 4 => '4'
  | 5 => '5' | 6 => '6' | 7 => '7' | 8 => '8' | _ => '9'

/-- Decimal digits, most significant first; structural recursion on a fuel
argument so that the kernel can evaluate it (any `fuel > n` is enough). -/
def natDigitsAux : Nat → Nat → List Char
  | 0, n => [digitChar n]
  | fuel + 1, n =>
    if n < 10 then [digitChar n]
    else natDigitsAux fuel (n / 10) ++ [digitChar (n % 10)]

/-- Decimal digits of a natural number, most significant first. -/
def natDigits (n : Nat) : List Char := natDigitsAux n n

/-- Zero-pad the decimal rendering of `n` to at least `w` characters. -/
def padNat (w n : Nat) : List Char :=
  List.replicate (w - (natDigits n).length) '0' ++ natDigits n

/-- The configured zero-pad width for the sequence component (spec §8 example
`far_dfars-2024-000001`). -/
def sequencePadWidth : Nat := 6

/-- Render a Nuremberg ID from its partition key and sequence, following
`prefix_pattern = "{source_type}-{year}-{sequence}"`. -/
def formatNurembergId (source_type : String) (year seq : Nat) : String :=
  ⟨source_type.data ++ '-' :: natDigits year ++ '-' :: padNat sequencePadWidth seq⟩

/-! ### Injectivity of the rendered ID -/

/-- Interpret a digit character back to its value. -/
def charToDigit (c : Char) : Nat := c.toNat - 48

/-- Decimal value of a digit string, most significant first. -/
def digitsToNat (ds : List Char) : Nat :=
  ds.foldl (fun a c => 10 * a + charToDigit c) 0

theorem digitsToNat_go (ds : List Char) (a : Nat) :
    ds.foldl (fun a c => 10 * a + charToDigit c) a =
      a * 10 ^ ds.length + digitsToNat ds := by
  induction ds generalizing a with
  | nil => simp [digitsToNat]
  | cons c t ih =>
    simp only [List.foldl_cons, digitsToNat, List.length_cons]
    rw [ih, ih (10 * 0 + charToDigit c)]
    ring

theorem charToDigit_digitChar (d : Nat) (h : d < 10) :
    charToDigit (digitChar d) = d := by
  interval_cases d <;> decide

theorem digitChar_ne_dash (d : Nat) : digitChar d ≠ '-' := by
  unfold digitChar
  split <;> decide

theorem dash_not_mem_natDigitsAux (fuel n : Nat) : '-' ∉ natDigitsAux fuel n := by
  induction fuel generalizing n with
  | zero => simpa [natDigitsAux] using (digitChar_ne_dash n).symm
  | succ fuel ih =>
    unfold natDigitsAux
    split
    · simpa using (digitChar_ne_dash n).symm
    · rw [List.mem_append]
      push_neg
      exact ⟨ih (n / 10), by simp [(digitChar_ne_dash (n % 10)).symm]⟩

theorem dash_not_mem_natDigits (n : Nat) : '-' ∉ natDigits n :=
  dash_not_mem_natDigitsAux n n

theorem dash_not_mem_padNat (w n : Nat) : '-' ∉ padNat w n := by
  unfold padNat
  rw [List.mem_append]
  push_neg
  refine ⟨?_, dash_not_mem_natDigits n⟩
  intro h
  have := List.eq_of_mem_replicate h
  simp at this

theorem digitsToNat_natDigitsAux (fuel n : Nat) (hfuel : n ≤ fuel) :
    digitsToNat (natDigitsAux fuel n) = n := by
  induction fuel generalizing n with
  | zero =>
    have : n = 0 := Nat.le_zero.mp hfuel
    subst this
    simp [natDigitsAux, digitsToNat, charToDigit_digitChar 0 (by omega)]
  | succ fuel ih =>
    unfold natDigitsAux
    split
    · rename_i h
      simp [digitsToNat, charToDigit_digitChar n h]
    · rename_i h
      simp only [digitsToNat, List.foldl_append, List.foldl_cons, List.foldl_nil]
      have hrec : (natDigitsAux fuel (n / 10)).foldl
          (fun a c => 10 * a + charToDigit c) 0 = n / 10 := by
        have hd : n / 10 ≤ fuel := by
          have h1 : n / 10 < n := Nat.div_lt_self (by omega) (by omega)
          omega
        exact ih (n / 10) hd
      rw [hrec, charToDigit_digitChar (n % 10) (Nat.mod_lt n (by omega))]
      omega

/-- `digitsToNat` inverts `natDigits`. -/
theorem digitsToNat_natDigits (n : Nat) : digitsToNat (natDigits n) = n :=
  digitsToNat_natDigitsAux n n le_rfl

/-- `digitsToNat` ignores leading zeros, so it also inverts `padNat`. -/
theorem digitsToNat_padNat (w n : Nat) : digitsToNat (padNat w n) = n := by
  unfold padNat digitsToNat
  rw [List.foldl_append]
  have hz : ∀ k, (List.replicate k '0').foldl (fun a c => 10 * a + charToDigit c) 0 = 0 := by
    intro k
    induction k with
    | zero => rfl
    | succ k ihk => simpa [List.replicate_succ, charToDigit] using ihk
  rw [hz]
  exact digitsToNat_natDigits n

/-- Splitting a character list at its first dash is unambiguous when the part
before the dash contains no dash. -/
theorem split_at_dash {xs ys rest rest' : List Char}
    (hx : '-' ∉ xs) (hy : '-' ∉ ys)
    (h : xs ++ '-' :: rest = ys ++ '-' :: rest') :
    xs = ys ∧ rest = rest' := by
  induction xs generalizing ys with
  | nil =>
    cases ys with
    | nil => simpa using h
    | cons b bs =>
      simp only [List.nil_append, List.cons_append, List.cons.injEq] at h
      exact absurd (h.1 ▸ List.mem_cons_self b bs) (h.1 ▸ hy)
  | cons a as ih =>
    cases ys with
    | nil =>
      simp only [List.cons_append, List.nil_append, List.cons.injEq] at h
      exact absurd (h.1.symm ▸ List.mem_cons_self a as) (h.1.symm ▸ hx)
    | cons b bs =>
      simp only [List.cons_append, List.cons.injEq] at h
      obtain ⟨hab, htail⟩ := h
      have := ih (fun hm => hx (List.mem_cons_of_mem a hm))
        (fun hm => hy (List.mem_cons_of_mem b hm)) htail
      exact ⟨by rw [hab, this.1], this.2⟩

/-- The rendered Nuremberg ID determines its partition and sequence, provided
the source type contains no dash (every controlled-vocabulary source
satisfies this). -/
theorem formatNurembergId_inj
    {s₁ s₂ : String} {y₁ y₂ q₁ q₂ : Nat}
    (h₁ : '-' ∉ s₁.data) (h₂ : '-' ∉ s₂.data)
    (h : formatNurembergId s₁ y₁ q₁ = formatNurembergId s₂ y₂ q₂) :
    s₁ = s₂ ∧ y₁ = y₂ ∧ q₁ = q₂ := by
  unfold formatNurembergId at h
  have hdata : s₁.data ++ '-' :: (natDigits y₁ ++ '-' :: padNat sequencePadWidth q₁)
      = s₂.data ++ '-' :: (natDigits y₂ ++ '-' :: padNat sequencePadWidth q₂) := by
    have := congrArg String.data h
    simpa using this
  obtain ⟨hs, hrest⟩ := split_at_dash h₁ h₂ hdata
  obtain ⟨hy, hq⟩ := split_at_dash (dash_not_mem_natDigits y₁)
    (dash_not_mem_natDigits y₂) hrest
  refine ⟨?_, ?_, ?_⟩
  · cases s₁; cases s₂; exact congrArg String.mk (by simpa using hs)
  · have := congrArg digitsToNat hy
    rwa [digitsToNat_natDigits, digitsToNat_natDigits] at this
  · have := congrArg digitsToNat hq
    rwa [digitsToNat_padNat, digitsToNat_padNat] at this

/-- None of the controlled-vocabulary source types contains a dash. -/
theorem controlledSources_no_dash :
    ∀ s ∈ controlledSources, '-' ∉ s.data := by
  decide

/-! ## Content Hasher

Modelled from the spec (§4.1) and `src/docs/transformation_rules.md`: the
hasher canonicalizes the document text (normalize encoding, lowercase,
collapse whitespace) and strips volatile fields (the fetch timestamp is not
part of the hashed content).  The fingerprint itself is modelled as the
canonical text, i.e. as a collision-free stable fingerprint. -/

/-- Whitespace characters collapsed during canonicalization. -/
def isSpaceChar (c : Char) : Bool :=
  c == ' ' || c == '\t' || c == '\n' || c == '\r'

/-- Collapse whitespace runs to a single space and lowercase the text; the
flag records whether the previous emitted character was (virtual) whitespace
so that leading whitespace and repeated whitespace are collapsed. -/
def collapseAux : Bool → List Char → List Char
  | _, [] => []
  | prevSpace, c :: t =>
    if isSpaceChar c then
      if prevSpace then collapseAux true t
      else ' ' :: collapseAux true t
    else c.toLower :: collapseAux false t

/-- Canonical form of document text: whitespace-collapsed, lowercased. -/
def canonicalText (s : String) : String := ⟨collapseAux true s.data⟩

/-! ## Nuremberg Allocator

Modelled from the spec (§4.2, §3, §9): the backend module
`processing/transformation/nuremberg_numbering.py` is not in the source tree.
The allocator derives the partition key `(source_type, year)` from metadata,
proposes `sequence = current partition maximum + 1`, renders the ID with
`prefix_pattern`, and never reuses a sequence once issued
(`conflict_resolution: "increment"`), even when the commit that used it
fails.  Content duplication is checked against the hashes of the committed
documents: a hit allocates no new ID and reports `duplicate-of` the existing
ID.  Allocation is gated by validation; the gate relevant to the allocator is
the controlled-vocabulary check on the source type.  The per-partition
counter is the single serialization point, so the machine takes ingestions
one at a time; commit success is an oracle input. -/

/-- A raw document as seen by the allocator: content, partition metadata and
the volatile fetch timestamp (excluded from hashing). -/
structure RawDoc where
  content : String
  source_type : String
  year : Nat
  fetch_timestamp : String
deriving DecidableEq, Repr

/-- Content hash of a raw document: canonical text of its content; the
volatile `fetch_timestamp` field is stripped before hashing. -/
def contentHash (d : RawDoc) : String := canonicalText d.content

/-- A committed document in the relational store, as the allocator sees it. -/
structure CommittedDoc where
  id : String
  source_type : String
  year : Nat
  seq : Nat
  hash : String
deriving DecidableEq, Repr, Inhabited

/-- Allocation partition key `(source_type, year)`. -/
abbrev Partition := String × Nat

/-- Allocator state: every `(partition, sequence)` pair ever issued (newest
first), and the committed documents (newest first). -/
structure AllocState where
  issued : List (Partition × Nat)
  committed : List CommittedDoc
deriving DecidableEq, Repr

/-- Per-document outcome of one ingestion through the allocator. -/
inductive IngestOutcome where
  | committed (id : String)
  | duplicateOf (id : String)
  | commitFailed (id : String)
  | rejected
deriving DecidableEq, Repr

/-- Sequences recorded for partition `p` in an issue/commit ledger. -/
def seqsFor (l : List (Partition × Nat)) (p : Partition) : List Nat :=
  (l.filter (fun e => decide (e.1 = p))).map (·.2)

/-- Sequences ever issued for partition `p`. -/
def issuedFor (s : AllocState) (p : Partition) : List Nat :=
  seqsFor s.issued p

/-- Sequences of the committed documents of partition `p`, newest first. -/
def committedFor (s : AllocState) (p : Partition) : List Nat :=
  seqsFor (s.committed.map (fun c => ((c.source_type, c.year), c.seq))) p

/-- Current maximum sequence issued for partition `p` (0 if none). -/
def partitionMax (s : AllocState) (p : Partition) : Nat :=
  (issuedFor s p).foldr max 0

/-- Allocate a fresh sequence for the document's partition, render the ID and
attempt the commit; the sequence is recorded as issued whether or not the
commit succeeds. -/
def nextSeq (s : AllocState) (d : RawDoc) : Nat :=
  partitionMax s (d.source_type, d.year) + 1

def allocateFresh (s : AllocState) (d : RawDoc) (commitOk : Bool) :
    AllocState × IngestOutcome :=
  if commitOk then
    ({ issued := ((d.source_type, d.year), nextSeq s d) :: s.issued
       committed := ⟨formatNurembergId d.source_type d.year (nextSeq s d),
                     d.source_type, d.year, nextSeq s d, contentHash d⟩ :: s.committed },
     .committed (formatNurembergId d.source_type d.year (nextSeq s d)))
  else
    ({ issued := ((d.source_type, d.year), nextSeq s d) :: s.issued
       committed := s.committed },
     .commitFailed (formatNurembergId d.source_type d.year (nextSeq s d)))

/-- One ingestion through validation gate, duplicate detection and
allocation. -/
def ingest (s : AllocState) (d : RawDoc) (commitOk : Bool) :
    AllocState × IngestOutcome :=
  if d.source_type ∈ controlledSources then
    match s.committed.find? (fun c => c.hash == contentHash d) with
    | some c => (s, .duplicateOf c.id)
    | none => allocateFresh s d commitOk
  else (s, .rejected)

/-- The empty allocator state. -/
def initAllocState : AllocState := { issued := [], committed := [] }

/-- Run a trace of (document, commit-success) events. -/
def runTrace (s : AllocState) : List (RawDoc × Bool) → AllocState
  | [] => s
  | (d, ok) :: tr => runTrace (ingest s d ok).1 tr

/-- States reachable from the empty allocator state. -/
def AllocReachable (s : AllocState) : Prop :=
  ∃ tr, runTrace initAllocState tr = s

/-- Inductive invariant of the allocator machine. -/
structure AllocInv (s : AllocState) : Prop where
  issued_desc : ∀ p, (issuedFor s p).Pairwise (· > ·)
  issued_pos : ∀ e ∈ s.issued, 1 ≤ e.2
  committed_sub : ∀ c ∈ s.committed, ((c.source_type, c.year), c.seq) ∈ s.issued
  committed_id : ∀ c ∈ s.committed, c.id = formatNurembergId c.source_type c.year c.seq
  committed_src : ∀ c ∈ s.committed, c.source_type ∈ controlledSources
  committed_desc : ∀ p, (committedFor s p).Pairwise (· > ·)
  id_nodup : (s.committed.map (·.id)).Nodup
  hash_nodup : (s.committed.map (·.hash)).Nodup

theorem le_foldr_max {l : List Nat} {x : Nat} (h : x ∈ l) : x ≤ l.foldr max 0 := by
  induction l with
  | nil => simp at h
  | cons a t ih =>
    rcases List.mem_cons.mp h with rfl | hm
    · exact le_max_left _ _
    · exact le_trans (ih hm) (le_max_right _ _)

theorem mem_seqsFor {l : List (Partition × Nat)} {p : Partition} {n : Nat}
    (h : (p, n) ∈ l) : n ∈ seqsFor l p := by
  unfold seqsFor
  exact List.mem_map.mpr ⟨(p, n), List.mem_filter.mpr ⟨h, by simp⟩, rfl⟩

theorem seqsFor_cons (q : Partition) (n : Nat) (l : List (Partition × Nat))
    (p : Partition) :
    seqsFor ((q, n) :: l) p =
      if q = p then n :: seqsFor l p else seqsFor l p := by
  unfold seqsFor
  by_cases h : q = p <;> simp [List.filter_cons, h]

/-- Sequences of a committed document are bounded by its partition's current
maximum. -/
theorem seq_le_partitionMax {s : AllocState} (h : AllocInv s) :
    ∀ c ∈ s.committed, c.seq ≤ partitionMax s (c.source_type, c.year) := by
  intro c hc
  exact le_foldr_max (mem_seqsFor (h.committed_sub c hc))

theorem mem_committedFor {s : AllocState} {p : Partition} {x : Nat}
    (hx : x ∈ committedFor s p) :
    ∃ c ∈ s.committed, (c.source_type, c.year) = p ∧ c.seq = x := by
  unfold committedFor seqsFor at hx
  obtain ⟨e, he, hex⟩ := List.mem_map.mp hx
  obtain ⟨he', hep⟩ := List.mem_filter.mp he
  obtain ⟨c, hc, rfl⟩ := List.mem_map.mp he'
  exact ⟨c, hc, by simpa using hep, hex⟩

theorem allocInv_init : AllocInv initAllocState := by
  constructor <;> simp [initAllocState, issuedFor, committedFor, seqsFor]

theorem issued_desc_cons (s : AllocState) (d : RawDoc) (h : AllocInv s)
    (q : Partition) :
    (seqsFor (((d.source_type, d.year), nextSeq s d) :: s.issued) q).Pairwise
      (· > ·) := by
  rw [seqsFor_cons]
  split
  · rename_i hq
    refine List.Pairwise.cons ?_ (h.issued_desc q)
    intro x hx
    have hle : x ≤ partitionMax s q := le_foldr_max hx
    rw [← hq] at hle
    unfold nextSeq
    omega
  · exact h.issued_desc q

theorem allocInv_allocateFresh (s : AllocState) (d : RawDoc) (ok : Bool)
    (h : AllocInv s) (hsrc : d.source_type ∈ controlledSources)
    (hfresh : ∀ c ∈ s.committed, c.hash ≠ contentHash d) :
    AllocInv (allocateFresh s d ok).1 := by
  have hidfresh : ∀ c ∈ s.committed,
      c.id ≠ formatNurembergId d.source_type d.year (nextSeq s d) := by
    intro c hc hid
    rw [h.committed_id c hc] at hid
    obtain ⟨hs, hy, hq⟩ := formatNurembergId_inj
      (controlledSources_no_dash _ (h.committed_src c hc))
      (controlledSources_no_dash _ hsrc) hid
    have hle := seq_le_partitionMax h c hc
    rw [hs, hy] at hle
    unfold nextSeq at hq
    omega
  cases ok with
  | false =>
    simp only [allocateFresh, Bool.false_eq_true, if_false]
    exact
      { issued_desc := fun q => issued_desc_cons s d h q
        issued_pos := by
          intro e he
          rcases List.mem_cons.mp he with rfl | hm
          · simp [nextSeq]
          · exact h.issued_pos e hm
        committed_sub := fun c hc => List.mem_cons_of_mem _ (h.committed_sub c hc)
        committed_id := h.committed_id
        committed_src := h.committed_src
        committed_desc := h.committed_desc
        id_nodup := h.id_nodup
        hash_nodup := h.hash_nodup }
  | true =>
    simp only [allocateFresh, if_true]
    refine
      { issued_desc := fun q => issued_desc_cons s d h q
        issued_pos := ?_
        committed_sub := ?_
        committed_id := ?_
        committed_src := ?_
        committed_desc := ?_
        id_nodup := ?_
        hash_nodup := ?_ }
    · intro e he
      rcases List.mem_cons.mp he with rfl | hm
      · simp [nextSeq]
      · exact h.issued_pos e hm
    · intro c hc
      rcases List.mem_cons.mp hc with rfl | hm
      · exact List.mem_cons_self _ _
      · exact List.mem_cons_of_mem _ (h.committed_sub c hm)
    · intro c hc
      rcases List.mem_cons.mp hc with rfl | hm
      · rfl
      · exact h.committed_id c hm
    · intro c hc
      rcases List.mem_cons.mp hc with rfl | hm
      · exact hsrc
      · exact h.committed_src c hm
    · intro q
      show (seqsFor (((d.source_type, d.year), nextSeq s d) ::
        s.committed.map (fun c => ((c.source_type, c.year), c.seq))) q).Pairwise (· > ·)
      rw [seqsFor_cons]
      split
      · rename_i hq
        refine List.Pairwise.cons ?_ (h.committed_desc q)
        intro x hx
        obtain ⟨c, hc, hpq, hseq⟩ := mem_committedFor (s := s) (p := q) hx
        have hle := seq_le_partitionMax h c hc
        rw [hpq, ← hq] at hle
        unfold nextSeq
        omega
      · exact h.committed_desc q
    · simp only [List.map_cons]
      refine List.nodup_cons.mpr ⟨?_, h.id_nodup⟩
      intro hmem
      obtain ⟨c, hc, hcid⟩ := List.mem_map.mp hmem
      exact hidfresh c hc hcid
    · simp only [List.map_cons]
      refine List.nodup_cons.mpr ⟨?_, h.hash_nodup⟩
      intro hmem
      obtain ⟨c, hc, hch⟩ := List.mem_map.mp hmem
      exact hfresh c hc hch

theorem allocInv_ingest (s : AllocState) (d : RawDoc) (ok : Bool)
    (h : AllocInv s) : AllocInv (ingest s d ok).1 := by
  unfold ingest
  split
  · rename_i hsrc
    split
    · exact h
    · rename_i heq
      apply allocInv_allocateFresh s d ok h hsrc
      intro c hc hch
      have := List.find?_eq_none.mp heq c hc
      simp [hch] at this
  · exact h

theorem allocInv_runTrace (s : AllocState) (h : AllocInv s)
    (tr : List (RawDoc × Bool)) : AllocInv (runTrace s tr) := by
  induction tr generalizing s with
  | nil => exact h
  | cons e tr ih =>
    obtain ⟨d, ok⟩ := e
    exact ih _ (allocInv_ingest s d ok h)

theorem allocInv_reachable {s : AllocState} (h : AllocReachable s) :
    AllocInv s := by
  obtain ⟨tr, rfl⟩ := h
  exact allocInv_runTrace _ allocInv_init tr

/-- Behaviour of `ingest` when the content hash already exists under a
committed document: no state change, outcome reports the existing ID. -/
theorem ingest_duplicate (s : AllocState) (d : RawDoc) (ok : Bool)
    (hsrc : d.source_type ∈ controlledSources)
    (hdup : ∃ c ∈ s.committed, c.hash = contentHash d) :
    (ingest s d ok).1 = s ∧
      ∃ c ∈ s.committed, c.hash = contentHash d ∧
        (ingest s d ok).2 = .duplicateOf c.id := by
  unfold ingest
  rw [if_pos hsrc]
  cases hf : s.committed.find? (fun c => c.hash == contentHash d) with
  | some c =>
    exact ⟨rfl, c, List.mem_of_find?_eq_some hf,
      by simpa using List.find?_some hf, rfl⟩
  | none =>
    exfalso
    obtain ⟨c, hc, hch⟩ := hdup
    have := List.find?_eq_none.mp hf c hc
    simp [hch] at this

/-- A first FAR/DFARS document of 2024 (spec §8 worked example). -/
def firstFarDfarsDoc : RawDoc :=
  { content := "Cybersecurity requirements for covered defense contracts."
    source_type := "far_dfars"
    year := 2024
    fetch_timestamp := "2024-05-01T12:00:00Z" }

/-- The same text fetched again later: identical content, different volatile
fetch timestamp (spec §8 worked example). -/
def refetchedFarDfarsDoc : RawDoc :=
  { content := "Cybersecurity requirements for covered defense contracts."
    source_type := "far_dfars"
    year := 2024
    fetch_timestamp := "2024-05-02T09:30:00Z" }

/-- A second, distinct FAR/DFARS document of 2024. -/
def secondFarDfarsDoc : RawDoc :=
  { content := "Supply chain risk assessment procedures."
    source_type := "far_dfars"
    year := 2024
    fetch_timestamp := "2024-05-03T08:00:00Z" }

/-- Demonstration trace: one successful commit, one failed commit (whose
sequence must never be reissued), a successful retry, and a refetch of the
first document (a content duplicate). -/
def demoTrace : List (RawDoc × Bool) :=
  [(firstFarDfarsDoc, true), (secondFarDfarsDoc, false),
   (secondFarDfarsDoc, true), (refetchedFarDfarsDoc, true)]

/-- **C1**: in every reachable allocator state, no two committed documents
share a Nuremberg ID, and the sequence numbers ever issued for a
`(source_type, year)` partition are pairwise distinct — a sequence is never
issued twice, even when the commit that used it failed (the trace oracle
records failed commits in `issued` as well). -/
theorem committed_ids_unique_and_sequences_never_reissued
    (s : AllocState) (p : Partition) (h : AllocReachable s) :
    (s.committed.map (·.id)).Nodup ∧ (issuedFor s p).Nodup := by
  have hi := allocInv_reachable h
  exact ⟨hi.id_nodup, (hi.issued_desc p).imp fun hx => ne_of_gt hx⟩

theorem committed_ids_unique_and_sequences_never_reissued_witness :
    ((runTrace initAllocState demoTrace).committed.map (·.id)).Nodup ∧
      (issuedFor (runTrace initAllocState demoTrace) ("far_dfars", 2024)).Nodup :=
  committed_ids_unique_and_sequences_never_reissued _ _ ⟨demoTrace, rfl⟩

/-- **C2**: committed documents have pairwise distinct canonical content and
pairwise distinct Nuremberg IDs; ingesting a document whose canonical content
hash (computed after whitespace/encoding normalization, with the volatile
fetch timestamp stripped) already exists under a committed document allocates
no new ID, leaves the state unchanged, and reports `duplicate-of` the
existing document's ID rather than failing. -/
theorem duplicate_content_detected_not_reallocated
    (s : AllocState) (d : RawDoc) (ok : Bool) (h : AllocReachable s)
    (hsrc : d.source_type ∈ controlledSources)
    (hdup : ∃ c ∈ s.committed, c.hash = contentHash d) :
    s.committed.Pairwise (fun c₁ c₂ => c₁.hash ≠ c₂.hash ∧ c₁.id ≠ c₂.id) ∧
      (ingest s d ok).1 = s ∧
      ∃ c ∈ s.committed, c.hash = contentHash d ∧
        (ingest s d ok).2 = .duplicateOf c.id := by
  have hi := allocInv_reachable h
  have hpair : s.committed.Pairwise (fun c₁ c₂ => c₁.hash ≠ c₂.hash ∧ c₁.id ≠ c₂.id) := by
    have h₁ := List.pairwise_map.mp hi.hash_nodup
    have h₂ := List.pairwise_map.mp hi.id_nodup
    exact h₁.and h₂
  obtain ⟨h1, h2⟩ := ingest_duplicate s d ok hsrc hdup
  exact ⟨hpair, h1, h2⟩

theorem duplicate_content_detected_not_reallocated_witness :
    (runTrace initAllocState [(firstFarDfarsDoc, true)]).committed.Pairwise
        (fun c₁ c₂ => c₁.hash ≠ c₂.hash ∧ c₁.id ≠ c₂.id) ∧
      (ingest (runTrace initAllocState [(firstFarDfarsDoc, true)])
          refetchedFarDfarsDoc true).1 =
        runTrace initAllocState [(firstFarDfarsDoc, true)] ∧
      ∃ c ∈ (runTrace initAllocState [(firstFarDfarsDoc, true)]).committed,
        c.hash = contentHash refetchedFarDfarsDoc ∧
          (ingest (runTrace initAllocState [(firstFarDfarsDoc, true)])
              refetchedFarDfarsDoc true).2 = .duplicateOf c.id :=
  duplicate_content_detected_not_reallocated _ _ _ ⟨_, rfl⟩ (by decide) (by decide)

/-- **C8**: every committed Nuremberg ID is the rendering
`{source_type}-{year}-{sequence}` of its partition and sequence, with the
sequence component zero-padded to at least the configured width; the sequence
is at least 1 and the per-partition sequence history (newest first) is
strictly decreasing, i.e. strictly increasing in order of commitment; and
from the empty state the first committed document of partition
`far_dfars-2024` receives the ID `far_dfars-2024-000001`. -/
theorem nuremberg_id_format_and_monotonic
    (s : AllocState) (c : CommittedDoc) (p : Partition)
    (h : AllocReachable s) (hc : c ∈ s.committed) :
    c.id = formatNurembergId c.source_type c.year c.seq ∧
      1 ≤ c.seq ∧
      sequencePadWidth ≤ (padNat sequencePadWidth c.seq).length ∧
      (committedFor s p).Pairwise (· > ·) ∧
      (ingest initAllocState firstFarDfarsDoc true).2 =
        .committed "far_dfars-2024-000001" := by
  have hi := allocInv_reachable h
  refine ⟨hi.committed_id c hc, ?_, ?_, hi.committed_desc p, ?_⟩
  · exact hi.issued_pos _ (hi.committed_sub c hc)
  · unfold padNat
    rw [List.length_append, List.length_replicate]
    omega
  · decide

theorem nuremberg_id_format_and_monotonic_witness :
    ((runTrace initAllocState demoTrace).committed.headI).id =
        formatNurembergId
          ((runTrace initAllocState demoTrace).committed.headI).source_type
          ((runTrace initAllocState demoTrace).committed.headI).year
          ((runTrace initAllocState demoTrace).committed.headI).seq ∧
      1 ≤ ((runTrace initAllocState demoTrace).committed.headI).seq ∧
      sequencePadWidth ≤ (padNat sequencePadWidth
        ((runTrace initAllocState demoTrace).committed.headI).seq).length ∧
      (committedFor (runTrace initAllocState demoTrace)
        ("far_dfars", 2024)).Pairwise (· > ·) ∧
      (ingest initAllocState firstFarDfarsDoc true).2 =
        .committed "far_dfars-2024-000001" :=
  nuremberg_id_format_and_monotonic _ _ _ ⟨demoTrace, rfl⟩ (by decide)

/-! ## Metadata/Schema Validator

Modelled from the spec (§4.3, §6, §7): the backend validation modules
(`processing/validation/*`) are not in the source tree.  Required fields and
the size limit come from `validation.metadata` in `app_config.yaml` (which is
in the source tree); controlled vocabularies come from
`processing.standardization.controlled_vocabularies`.  Violations carry a
severity in `{critical, warning}`; missing required fields, malformed dates
and out-of-vocabulary values are critical (they block allocation, spec
`ValidationCritical`); the size limit is modelled as a recorded,
non-blocking warning (spec `ValidationWarning`).  Validation is a pure
function of the document: the gating stage returns the document unchanged
together with the violation list. -/

/-- Severity of a validation violation. -/
inductive Severity where
  | critical
  | warning
deriving DecidableEq, Repr

/-- One structured validation violation (`{code, field, message, severity}`,
spec §6 validation response). -/
structure ValidationIssue where
  code : String
  field : String
  message : String
  severity : Severity
deriving DecidableEq, Repr

/-- A document as presented to the validator: metadata mapping plus size. -/
structure MetaDoc where
  metadata : List (String × String)
  file_size_mb : Nat
deriving DecidableEq, Repr

/-- Canonical calendar format check (`standardization.date_format:
"YYYY-MM-DD"` in `app_config.yaml`). -/
def isIsoDate (s : String) : Bool :=
  match s.data with
  | [y1, y2, y3, y4, h1, m1, m2, h2, d1, d2] =>
    y1.isDigit && y2.isDigit && y3.isDigit && y4.isDigit &&
      h1 == '-' && m1.isDigit && m2.isDigit && h2 == '-' &&
      d1.isDigit && d2.isDigit
  | _ => false

/-- Critical violations for each missing required metadata field. -/
def missingFieldIssues (d : MetaDoc) : List ValidationIssue :=
  (metadataValidationConfig.required_fields.filter
      (fun f => (d.metadata.lookup f).isNone)).map
    (fun f => ⟨"missing_required_field", f,
      "required metadata field is missing", .critical⟩)

/-- Critical violation when the date field is not in canonical format. -/
def dateFormatIssues (d : MetaDoc) : List ValidationIssue :=
  match d.metadata.lookup "date" with
  | some v =>
    if isIsoDate v then []
    else [⟨"invalid_date_format", "date",
      "dates must use the canonical YYYY-MM-DD format", .critical⟩]
  | none => []

/-- Critical violations for controlled-vocabulary fields outside the fixed
value sets. -/
def vocabularyIssues (d : MetaDoc) : List ValidationIssue :=
  (match d.metadata.lookup "document_type" with
   | some v =>
     if v ∈ controlledDocumentTypes then []
     else [⟨"unknown_document_type", "document_type",
       "value outside the controlled vocabulary", .critical⟩]
   | none => []) ++
  (match d.metadata.lookup "source" with
   | some v =>
     if v ∈ controlledSources then []
     else [⟨"unknown_source", "source",
       "value outside the controlled vocabulary", .critical⟩]
   | none => [])

/-- Non-blocking warning when the document exceeds the configured size. -/
def sizeIssues (d : MetaDoc) : List ValidationIssue :=
  if d.file_size_mb ≤ metadataValidationConfig.max_file_size_mb then []
  else [⟨"file_too_large", "file_size",
    "file exceeds max_file_size_mb", .warning⟩]

/-- The validator: all structural and field-level checks. -/
def validateDoc (d : MetaDoc) : List ValidationIssue :=
  missingFieldIssues d ++ dateFormatIssues d ++ vocabularyIssues d ++ sizeIssues d

/-- A document passes validation when there is no violation at all. -/
def passesValidation (d : MetaDoc) : Bool :=
  (validateDoc d).isEmpty

/-- A document proceeds to allocation unless a critical violation exists;
warnings are recorded but non-blocking. -/
def proceedsToAllocation (d : MetaDoc) : Bool :=
  !(validateDoc d).any (fun i => i.severity == Severity.critical)

/-- The validation pipeline stage: advisory plus gating, the document flows
through unchanged. -/
def validateStage (d : MetaDoc) : MetaDoc × List ValidationIssue :=
  (d, validateDoc d)

/-- **C6**: validation yields a pass or a list of violations whose severities
all lie in `{critical, warning}`; a document `d` missing a required metadata
field does not pass, and (the missing-field violation being critical) is
blocked from allocation; a document `d'` with only warning-level violations
is not blocked; and validation returns both documents unchanged. -/
theorem validation_severity_gating_and_purity
    (d d' : MetaDoc) (f : String)
    (hf : f ∈ metadataValidationConfig.required_fields)
    (hmiss : d.metadata.lookup f = none)
    (hw : ∀ i ∈ validateDoc d', i.severity = Severity.warning) :
    ((validateDoc d).all
        (fun i => i.severity == Severity.critical ||
          i.severity == Severity.warning)) = true ∧
      passesValidation d = false ∧
      proceedsToAllocation d = false ∧
      proceedsToAllocation d' = true ∧
      (validateStage d).1 = d ∧ (validateStage d').1 = d' := by
  have hmem : (⟨"missing_required_field", f,
      "required metadata field is missing", .critical⟩ : ValidationIssue)
      ∈ validateDoc d := by
    unfold validateDoc
    refine List.mem_append.mpr (Or.inl (List.mem_append.mpr (Or.inl
      (List.mem_append.mpr (Or.inl ?_)))))
    unfold missingFieldIssues
    exact List.mem_map.mpr ⟨f, List.mem_filter.mpr ⟨hf, by simp [hmiss]⟩, rfl⟩
  refine ⟨?_, ?_, ?_, ?_, rfl, rfl⟩
  · exact List.all_eq_true.mpr (fun i _ => by cases hs : i.severity <;> simp)
  · unfold passesValidation
    rw [List.isEmpty_eq_false_iff_exists_mem]
    exact ⟨_, hmem⟩
  · unfold proceedsToAllocation
    simp only [Bool.not_eq_false', List.any_eq_true]
    exact ⟨_, hmem, rfl⟩
  · unfold proceedsToAllocation
    simp only [Bool.not_eq_true', List.any_eq_false]
    intro i hi
    rw [hw i hi]
    decide

/-- A FAR/DFARS rule missing its `nuremberg_number` field. -/
def incompleteDoc : MetaDoc :=
  { metadata := [("title", "Safeguarding Covered Defense Information"),
                 ("source", "far_dfars"), ("date", "2024-05-01"),
                 ("document_type", "regulation")]
    file_size_mb := 1 }

/-- A complete NIST standard that only exceeds the size limit (warning). -/
def oversizeDoc : MetaDoc :=
  { metadata := [("title", "Protecting Controlled Unclassified Information"),
                 ("source", "nist"), ("date", "2024-01-31"),
                 ("document_type", "standard"),
                 ("nuremberg_number", "nist-2024-000001")]
    file_size_mb := 60 }

theorem validation_severity_gating_and_purity_witness :
    ((validateDoc incompleteDoc).all
        (fun i => i.severity == Severity.critical ||
          i.severity == Severity.warning)) = true ∧
      passesValidation incompleteDoc = false ∧
      proceedsToAllocation incompleteDoc = false ∧
      proceedsToAllocation oversizeDoc = true ∧
      (validateStage incompleteDoc).1 = incompleteDoc ∧
      (validateStage oversizeDoc).1 = oversizeDoc :=
  validation_severity_gating_and_purity incompleteDoc oversizeDoc
    "nuremberg_number" (by decide) (by decide) (by decide)

/-! ## Crosswalk Reconciler

Modelled from the spec (§4.4, §3 CrosswalkRecord): the reconciler module is
not in the source tree (`validation.crosswalk` in `app_config.yaml` only
enables it).  Write order is relational first, graph second; the graph write
may fail (partial failure), leaving no or a stale graph node.  Pipeline
updates re-derive the graph node; a reconciliation sweep upserts, for every
relational record, the graph node re-derived from it (graph upsert keyed by
ID, not insert-only; the relational store wins every conflict). -/

/-- The reconcilable core field subset of a document. -/
structure CoreFields where
  title : String
  source : String
  document_type : String
  publication_date : String
deriving DecidableEq, Repr

/-- A committed document in the relational store (source of truth). -/
structure RelRecord where
  id : String
  fields : CoreFields
deriving DecidableEq, Repr

/-- A node in the graph store (derived representation). -/
structure GraphNode where
  id : String
  fields : CoreFields
deriving DecidableEq, Repr

/-- The two stores as the reconciler sees them. -/
structure CrosswalkState where
  rel : List RelRecord
  graph : List GraphNode
deriving DecidableEq, Repr

/-- Re-derive the graph node from a relational record. -/
def deriveNode (r : RelRecord) : GraphNode := ⟨r.id, r.fields⟩

/-- Graph upsert keyed by ID: replace the node with this ID, or insert. -/
def upsertNode (n : GraphNode) (g : List GraphNode) : List GraphNode :=
  if g.any (fun m => m.id == n.id) then
    g.map (fun m => if m.id == n.id then n else m)
  else n :: g

/-- Events of the dual-write machine: a commit whose graph write may fail, a
pipeline update whose graph write may fail (leaving drift), and a
reconciliation sweep. -/
inductive CrosswalkStep where
  | commit (r : RelRecord) (graphOk : Bool)
  | update (id : String) (fields : CoreFields) (graphOk : Bool)
  | reconcile

/-- One step of the dual-write/reconcile machine. -/
def crosswalkStep (s : CrosswalkState) : CrosswalkStep → CrosswalkState
  | .commit r graphOk =>
    if s.rel.any (fun x => x.id == r.id) then s
    else
      { rel := r :: s.rel
        graph := if graphOk then upsertNode (deriveNode r) s.graph else s.graph }
  | .update i fields graphOk =>
    if s.rel.any (fun x => x.id == i) then
      { rel := s.rel.map (fun x => if x.id == i then ⟨i, fields⟩ else x)
        graph :=
          if graphOk then upsertNode (deriveNode ⟨i, fields⟩) s.graph
          else s.graph }
    else s
  | .reconcile =>
    { rel := s.rel
      graph := s.rel.foldr (fun r g => upsertNode (deriveNode r) g) s.graph }

/-- The empty pair of stores. -/
def initCrosswalkState : CrosswalkState := { rel := [], graph := [] }

/-- Run a trace of dual-write/reconcile events. -/
def runCrosswalk (s : CrosswalkState) : List CrosswalkStep → CrosswalkState
  | [] => s
  | st :: tr => runCrosswalk (crosswalkStep s st) tr

/-- States of the two stores reachable from empty. -/
def CrosswalkReachable (s : CrosswalkState) : Prop :=
  ∃ tr, runCrosswalk initCrosswalkState tr = s

/-- Inductive invariant: both stores are duplicate-free by ID. -/
structure CrosswalkInv (s : CrosswalkState) : Prop where
  rel_nodup : (s.rel.map (·.id)).Nodup
  graph_nodup : (s.graph.map (·.id)).Nodup

theorem upsertNode_nodup (n : GraphNode) (g : List GraphNode)
    (hg : (g.map (·.id)).Nodup) :
    ((upsertNode n g).map (·.id)).Nodup := by
  unfold upsertNode
  split
  · rename_i hmem
    rw [List.any_eq_true] at hmem
    obtain ⟨m, hm, hmn⟩ := hmem
    have hids : (g.map (fun m => if m.id == n.id then n else m)).map (·.id)
        = g.map (·.id) := by
      rw [List.map_map]
      refine List.map_congr_left ?_
      intro x _
      by_cases hx : x.id = n.id
      · simp [Function.comp_apply, hx]
      · simp [Function.comp_apply, beq_iff_eq, hx]
    rw [hids]
    exact hg
  · rename_i hmem
    simp only [List.map_cons]
    refine List.nodup_cons.mpr ⟨?_, hg⟩
    intro hin
    obtain ⟨m, hm, hmn⟩ := List.mem_map.mp hin
    rw [List.any_eq_true] at hmem
    push_neg at hmem
    exact absurd (beq_iff_eq.mpr hmn) (by simpa using hmem m hm)

theorem eq_singleton_of_length_le_one {α : Type _} {l : List α} {a : α}
    (h1 : l.length ≤ 1) (ha : a ∈ l) : l = [a] := by
  cases l with
  | nil => simp at ha
  | cons x t =>
    cases t with
    | nil =>
      rcases List.mem_cons.mp ha with rfl | h
      · rfl
      · simp at h
    | cons y u => simp at h1

/-- In an ID-duplicate-free graph, at most one node matches a given ID. -/
theorem filter_id_length_le_one (g : List GraphNode) (q : String)
    (hg : (g.map (·.id)).Nodup) :
    (g.filter (fun m => m.id == q)).length ≤ 1 := by
  induction g with
  | nil => simp
  | cons a t ih =>
    simp only [List.map_cons] at hg
    have hg' := List.nodup_cons.mp hg
    rw [List.filter_cons]
    split
    · rename_i haq
      have ht : t.filter (fun m => m.id == q) = [] := by
        rw [List.filter_eq_nil_iff]
        intro m hm hmq
        exact hg'.1 (List.mem_map.mpr ⟨m, hm,
          (eq_of_beq hmq).trans (eq_of_beq haq).symm⟩)
      simp [ht]
    · exact le_trans (ih hg'.2) le_rfl

/-- After an upsert, the nodes carrying the upserted ID are exactly the new
node (given an ID-duplicate-free graph). -/
theorem upsertNode_filter_self (n : GraphNode) (g : List GraphNode)
    (hg : (g.map (·.id)).Nodup) :
    (upsertNode n g).filter (fun m => m.id == n.id) = [n] := by
  unfold upsertNode
  split
  · rename_i hmem
    rw [List.filter_map]
    have hpf : ∀ m ∈ g, ((fun m => m.id == n.id) ∘
        (fun m => if m.id == n.id then n else m)) m = (m.id == n.id) := by
      intro m _
      by_cases hm : m.id = n.id
      · simp [Function.comp_apply, hm]
      · simp [Function.comp_apply, beq_iff_eq, hm]
    rw [List.filter_congr hpf]
    rw [List.any_eq_true] at hmem
    obtain ⟨m0, hm0, hm0n⟩ := hmem
    have hsing : g.filter (fun m => m.id == n.id) = [m0] :=
      eq_singleton_of_length_le_one (filter_id_length_le_one g n.id hg)
        (List.mem_filter.mpr ⟨hm0, hm0n⟩)
    rw [hsing]
    simp [eq_of_beq hm0n]
  · rename_i hmem
    rw [List.any_eq_true] at hmem
    push_neg at hmem
    rw [List.filter_cons]
    simp only [beq_self_eq_true, if_true]
    have : g.filter (fun m => m.id == n.id) = [] := by
      rw [List.filter_eq_nil_iff]
      intro m hm hmq
      exact absurd hmq (by simpa using hmem m hm)
    rw [this]

/-- An upsert does not change the set of nodes carrying a different ID. -/
theorem upsertNode_filter_other (n : GraphNode) (g : List GraphNode)
    (q : String) (hq : q ≠ n.id) :
    (upsertNode n g).filter (fun m => m.id == q) =
      g.filter (fun m => m.id == q) := by
  unfold upsertNode
  split
  · rw [List.filter_map]
    have hpf : ∀ m ∈ g, ((fun m => m.id == q) ∘
        (fun m => if m.id == n.id then n else m)) m = (m.id == q) := by
      intro m _
      by_cases hm : m.id = n.id
      · have h1 : (n.id == q) = false := by
          simpa using fun h => hq h.symm
        have h2 : (m.id == q) = false := by
          rw [hm]
          exact h1
        simp [Function.comp_apply, hm, h1, h2]
      · simp [Function.comp_apply, beq_iff_eq, hm]
    rw [List.filter_congr hpf]
    have : ∀ m ∈ g.filter (fun m => m.id == q),
        (if m.id == n.id then n else m) = m := by
      intro m hm
      have hmq := (List.mem_filter.mp hm).2
      have : (m.id == n.id) = false := by
        rw [eq_of_beq hmq]
        simpa [beq_iff_eq] using hq
      simp [this]
    calc (g.filter (fun m => m.id == q)).map (fun m => if m.id == n.id then n else m)
        = (g.filter (fun m => m.id == q)).map id := List.map_congr_left this
      _ = g.filter (fun m => m.id == q) := List.map_id _
  · rw [List.filter_cons]
    have : (n.id == q) = false := by
      simpa using fun h => hq h.symm
    simp [this]

theorem foldr_upsert_nodup (rel : List RelRecord) (g : List GraphNode)
    (hg : (g.map (·.id)).Nodup) :
    ((rel.foldr (fun r acc => upsertNode (deriveNode r) acc) g).map
      (·.id)).Nodup := by
  induction rel with
  | nil => exact hg
  | cons a t ih => exact upsertNode_nodup _ _ ih

/-- After a full reconciliation fold, every relational record has exactly its
re-derived node in the graph (relational store wins). -/
theorem foldr_upsert_filter (rel : List RelRecord) (g : List GraphNode)
    (hrel : (rel.map (·.id)).Nodup) (hg : (g.map (·.id)).Nodup)
    (r : RelRecord) (hr : r ∈ rel) :
    ((rel.foldr (fun r acc => upsertNode (deriveNode r) acc) g).filter
      (fun m => m.id == r.id)) = [deriveNode r] := by
  induction rel with
  | nil => simp at hr
  | cons a t ih =>
    simp only [List.map_cons] at hrel
    have hrel' := List.nodup_cons.mp hrel
    simp only [List.foldr_cons]
    rcases List.mem_cons.mp hr with rfl | hrt
    · exact upsertNode_filter_self (deriveNode r) _ (foldr_upsert_nodup t g hg)
    · have hne : r.id ≠ (deriveNode a).id := by
        intro hIds
        exact hrel'.1 (List.mem_map.mpr ⟨r, hrt, hIds⟩)
      rw [upsertNode_filter_other _ _ _ hne]
      exact ih hrel'.2 hrt

/-- Relational IDs are preserved by a pipeline update. -/
theorem update_map_id (rel : List RelRecord) (i : String) (f : CoreFields) :
    ((rel.map (fun x => if x.id == i then ⟨i, f⟩ else x)).map (·.id)) =
      rel.map (·.id) := by
  rw [List.map_map]
  refine List.map_congr_left ?_
  intro x _
  by_cases hx : x.id = i
  · simp [Function.comp_apply, hx]
  · simp [Function.comp_apply, beq_iff_eq, hx]

theorem crosswalkInv_init : CrosswalkInv initCrosswalkState := by
  constructor <;> simp [initCrosswalkState]

theorem crosswalkInv_step (s : CrosswalkState) (st : CrosswalkStep)
    (h : CrosswalkInv s) : CrosswalkInv (crosswalkStep s st) := by
  cases st with
  | commit r graphOk =>
    show CrosswalkInv
      (if s.rel.any (fun x => x.id == r.id) then s
       else
         { rel := r :: s.rel
           graph := if graphOk then upsertNode (deriveNode r) s.graph
             else s.graph })
    split
    · exact h
    · rename_i hnew
      refine ⟨?_, ?_⟩
      · simp only [List.map_cons]
        refine List.nodup_cons.mpr ⟨?_, h.rel_nodup⟩
        intro hmem
        obtain ⟨x, hx, hxid⟩ := List.mem_map.mp hmem
        rw [List.any_eq_true] at hnew
        push_neg at hnew
        exact absurd (beq_iff_eq.mpr hxid) (by simpa using hnew x hx)
      · cases graphOk with
        | true => exact upsertNode_nodup _ _ h.graph_nodup
        | false => exact h.graph_nodup
  | update i f graphOk =>
    show CrosswalkInv
      (if s.rel.any (fun x => x.id == i) then
        { rel := s.rel.map (fun x => if x.id == i then ⟨i, f⟩ else x)
          graph := if graphOk then upsertNode (deriveNode ⟨i, f⟩) s.graph
            else s.graph }
       else s)
    split
    · refine ⟨?_, ?_⟩
      · rw [update_map_id]
        exact h.rel_nodup
      · cases graphOk with
        | true => exact upsertNode_nodup _ _ h.graph_nodup
        | false => exact h.graph_nodup
    · exact h
  | reconcile =>
    exact ⟨h.rel_nodup, foldr_upsert_nodup _ _ h.graph_nodup⟩

theorem crosswalkInv_run (s : CrosswalkState) (h : CrosswalkInv s)
    (tr : List CrosswalkStep) : CrosswalkInv (runCrosswalk s tr) := by
  induction tr generalizing s with
  | nil => exact h
  | cons st tr ih => exact ih _ (crosswalkInv_step s st h)

theorem crosswalkInv_reachable {s : CrosswalkState}
    (h : CrosswalkReachable s) : CrosswalkInv s := by
  obtain ⟨tr, rfl⟩ := h
  exact crosswalkInv_run _ crosswalkInv_init tr

/-- **C3**: from any reachable pair of stores (any history of commits with
failed graph writes and updates that left drift), running a reconciliation
sweep leaves, for every committed relational record, exactly one graph node
with its ID — and that node is re-derived from the relational record, so its
core fields match the relational ones (the relational store wins every
disagreement); the sweep never touches the relational store. -/
theorem crosswalk_reconcile_converges
    (s : CrosswalkState) (r : RelRecord)
    (h : CrosswalkReachable s) (hr : r ∈ s.rel) :
    ((crosswalkStep s CrosswalkStep.reconcile).graph.filter
        (fun m => m.id == r.id)) = [deriveNode r] ∧
      ((crosswalkStep s CrosswalkStep.reconcile).graph.filter
        (fun m => m.id == r.id)).length = 1 ∧
      (crosswalkStep s CrosswalkStep.reconcile).rel = s.rel := by
  have hi := crosswalkInv_reachable h
  have hf := foldr_upsert_filter s.rel s.graph hi.rel_nodup hi.graph_nodup r hr
  have hgraph : (crosswalkStep s CrosswalkStep.reconcile).graph =
      s.rel.foldr (fun r acc => upsertNode (deriveNode r) acc) s.graph := rfl
  refine ⟨?_, ?_, rfl⟩
  · rw [hgraph]
    exact hf
  · rw [hgraph, hf]
    rfl

/-- Core fields of the running example documents. -/
def coreFieldsA : CoreFields :=
  { title := "Assessing Contractor Implementation of Cybersecurity Requirements"
    source := "far_dfars"
    document_type := "regulation"
    publication_date := "2024-05-01" }

/-- Updated core fields for the same document (pipeline enrichment). -/
def coreFieldsA2 : CoreFields :=
  { coreFieldsA with title := "Assessing Cybersecurity Requirements (amended)" }

/-- Core fields of a second document. -/
def coreFieldsB : CoreFields :=
  { title := "Security and Privacy Controls for Information Systems"
    source := "nist"
    document_type := "standard"
    publication_date := "2024-01-31" }

/-- A crosswalk history with a clean commit, a commit whose graph write
failed, and an update whose graph write failed (drift on document A). -/
def demoCrosswalkTrace : List CrosswalkStep :=
  [.commit ⟨"far_dfars-2024-000001", coreFieldsA⟩ true,
   .commit ⟨"nist-2024-000001", coreFieldsB⟩ false,
   .update "far_dfars-2024-000001" coreFieldsA2 false]

theorem crosswalk_reconcile_converges_witness :
    ((crosswalkStep (runCrosswalk initCrosswalkState demoCrosswalkTrace)
        CrosswalkStep.reconcile).graph.filter
        (fun m => m.id == "far_dfars-2024-000001")) =
      [deriveNode ⟨"far_dfars-2024-000001", coreFieldsA2⟩] ∧
      ((crosswalkStep (runCrosswalk initCrosswalkState demoCrosswalkTrace)
        CrosswalkStep.reconcile).graph.filter
        (fun m => m.id == "far_dfars-2024-000001")).length = 1 ∧
      (crosswalkStep (runCrosswalk initCrosswalkState demoCrosswalkTrace)
        CrosswalkStep.reconcile).rel =
        (runCrosswalk initCrosswalkState demoCrosswalkTrace).rel :=
  crosswalk_reconcile_converges _ ⟨"far_dfars-2024-000001", coreFieldsA2⟩
    ⟨demoCrosswalkTrace, rfl⟩ (by decide)

/-! ## Relationship commitment

Modelled from the spec (§4.4 relationship validation, §3 Relationship, §7
`RelationshipOrphan`): an edge is committed only when both endpoint documents
are `committed` in the relational store; otherwise it is held in a pending
queue.  A sweep commits pending edges whose endpoints have resolved, ages the
rest, and drops (and reports) those that exceeded the retention window.  The
retention window is a parameter (the spec leaves it configurable). -/

/-- A directed relationship edge between two document IDs. -/
structure RelEdge where
  source_id : String
  target_id : String
  relationship_type : String
deriving DecidableEq, Repr

/-- State of the relationship subsystem: committed documents, committed
edges, the pending queue with ages, and dropped-and-reported orphans. -/
structure RelationshipState where
  committedDocs : List String
  edges : List RelEdge
  pending : List (RelEdge × Nat)
  reported : List RelEdge
deriving DecidableEq, Repr

/-- Both endpoints of the edge are committed documents. -/
def bothCommitted (s : RelationshipState) (e : RelEdge) : Bool :=
  s.committedDocs.contains e.source_id && s.committedDocs.contains e.target_id

/-- Events: a document commit, an edge submission, and a pending-queue
sweep. -/
inductive RelationshipStep where
  | commitDoc (i : String)
  | submitEdge (e : RelEdge)
  | sweep

/-- One step of the relationship machine with retention window `w`. -/
def relationshipStep (w : Nat) (s : RelationshipState) :
    RelationshipStep → RelationshipState
  | .commitDoc i => { s with committedDocs := i :: s.committedDocs }
  | .submitEdge e =>
    if bothCommitted s e then { s with edges := e :: s.edges }
    else { s with pending := (e, 0) :: s.pending }
  | .sweep =>
    { committedDocs := s.committedDocs
      edges := ((s.pending.filter (fun p => bothCommitted s p.1)).map (·.1))
        ++ s.edges
      pending := ((s.pending.filter (fun p => !bothCommitted s p.1)).map
          (fun p => (p.1, p.2 + 1))).filter (fun p => decide (p.2 < w))
      reported := (((s.pending.filter (fun p => !bothCommitted s p.1)).map
          (fun p => (p.1, p.2 + 1))).filter
            (fun p => decide (w ≤ p.2))).map (·.1) ++ s.reported }

/-- The empty relationship state. -/
def initRelationshipState : RelationshipState :=
  { committedDocs := [], edges := [], pending := [], reported := [] }

/-- Run a trace of relationship events. -/
def runRelationship (w : Nat) (s : RelationshipState) :
    List RelationshipStep → RelationshipState
  | [] => s
  | st :: tr => runRelationship w (relationshipStep w s st) tr

/-- States reachable from the empty relationship state under window `w`. -/
def RelationshipReachable (w : Nat) (s : RelationshipState) : Prop :=
  ∃ tr, runRelationship w initRelationshipState tr = s

/-- Inductive invariant: committed edges have committed endpoints, and
pending ages never exceed the retention window. -/
structure RelationshipInv (w : Nat) (s : RelationshipState) : Prop where
  edges_ok : ∀ e ∈ s.edges,
    e.source_id ∈ s.committedDocs ∧ e.target_id ∈ s.committedDocs
  pending_bound : ∀ p ∈ s.pending, p.2 ≤ w

theorem bothCommitted_iff (s : RelationshipState) (e : RelEdge) :
    bothCommitted s e = true ↔
      e.source_id ∈ s.committedDocs ∧ e.target_id ∈ s.committedDocs := by
  simp [bothCommitted]

theorem relationshipInv_init (w : Nat) :
    RelationshipInv w initRelationshipState := by
  constructor <;> simp [initRelationshipState]

theorem relationshipInv_step (w : Nat) (s : RelationshipState)
    (st : RelationshipStep) (h : RelationshipInv w s) :
    RelationshipInv w (relationshipStep w s st) := by
  cases st with
  | commitDoc i =>
    refine ⟨?_, h.pending_bound⟩
    intro e he
    obtain ⟨h1, h2⟩ := h.edges_ok e he
    exact ⟨List.mem_cons_of_mem _ h1, List.mem_cons_of_mem _ h2⟩
  | submitEdge e =>
    show RelationshipInv w
      (if bothCommitted s e then { s with edges := e :: s.edges }
       else { s with pending := (e, 0) :: s.pending })
    split
    · rename_i hb
      refine ⟨?_, h.pending_bound⟩
      intro x hx
      rcases List.mem_cons.mp hx with rfl | hm
      · exact (bothCommitted_iff s x).mp hb
      · exact h.edges_ok x hm
    · refine ⟨h.edges_ok, ?_⟩
      intro p hp
      rcases List.mem_cons.mp hp with rfl | hm
      · exact Nat.zero_le w
      · exact h.pending_bound p hm
  | sweep =>
    refine ⟨?_, ?_⟩
    · intro e he
      rcases List.mem_append.mp he with hres | hold
      · obtain ⟨p, hp, hpe⟩ := List.mem_map.mp hres
        have hb := (List.mem_filter.mp hp).2
        rw [hpe] at hb
        exact (bothCommitted_iff s e).mp hb
      · exact h.edges_ok e hold
    · intro p hp
      have hlt := (List.mem_filter.mp hp).2
      simp only [decide_eq_true_eq] at hlt
      omega

theorem relationshipInv_run (w : Nat) (s : RelationshipState)
    (h : RelationshipInv w s) (tr : List RelationshipStep) :
    RelationshipInv w (runRelationship w s tr) := by
  induction tr generalizing s with
  | nil => exact h
  | cons st tr ih => exact ih _ (relationshipInv_step w s st h)

theorem relationshipInv_reachable {w : Nat} {s : RelationshipState}
    (h : RelationshipReachable w s) : RelationshipInv w s := by
  obtain ⟨tr, rfl⟩ := h
  exact relationshipInv_run w _ (relationshipInv_init w) tr

/-- **C4**: in every reachable state, a committed edge has both endpoints
committed in the relational store, and pending ages are bounded by the
retention window; submitting an edge with an uncommitted endpoint writes
nothing to the edge store and holds the edge pending at age 0; and a pending
unresolved edge whose age has reached the retention window is, at the next
sweep, reported and no longer pending at its aged entry. -/
theorem relationships_reference_only_committed_documents
    (w : Nat) (s : RelationshipState) (e : RelEdge) (e' : RelEdge)
    (p : RelEdge × Nat)
    (h : RelationshipReachable w s)
    (he : e ∈ s.edges)
    (hnb : bothCommitted s e' = false)
    (hp : p ∈ s.pending)
    (hpu : bothCommitted s p.1 = false)
    (hexp : w ≤ p.2 + 1) :
    (e.source_id ∈ s.committedDocs ∧ e.target_id ∈ s.committedDocs) ∧
      p.2 ≤ w ∧
      (relationshipStep w s (.submitEdge e')).edges = s.edges ∧
      (e', 0) ∈ (relationshipStep w s (.submitEdge e')).pending ∧
      p.1 ∈ (relationshipStep w s RelationshipStep.sweep).reported ∧
      (p.1, p.2 + 1) ∉ (relationshipStep w s RelationshipStep.sweep).pending := by
  have hi := relationshipInv_reachable h
  refine ⟨hi.edges_ok e he, hi.pending_bound p hp, ?_, ?_, ?_, ?_⟩
  · show (if bothCommitted s e' then { s with edges := e' :: s.edges }
      else { s with pending := (e', 0) :: s.pending }).edges = s.edges
    rw [hnb]
    rfl
  · show (e', 0) ∈ (if bothCommitted s e' then { s with edges := e' :: s.edges }
      else { s with pending := (e', 0) :: s.pending }).pending
    rw [hnb]
    exact List.mem_cons_self _ _
  · refine List.mem_append.mpr (Or.inl (List.mem_map.mpr
      ⟨(p.1, p.2 + 1), ?_, rfl⟩))
    refine List.mem_filter.mpr ⟨List.mem_map.mpr ⟨p, ?_, rfl⟩, ?_⟩
    · exact List.mem_filter.mpr ⟨hp, by rw [hpu]; rfl⟩
    · simpa using hexp
  · intro hmem
    have hlt := (List.mem_filter.mp hmem).2
    simp only [decide_eq_true_eq] at hlt
    omega

/-- Demonstration state: documents A and B committed, an edge A→B committed,
an edge A→C pending (C never committed). -/
def demoRelationshipTrace : List RelationshipStep :=
  [.commitDoc "far_dfars-2024-000001",
   .commitDoc "nist-2024-000001",
   .submitEdge ⟨"far_dfars-2024-000001", "nist-2024-000001", "references"⟩,
   .submitEdge ⟨"far_dfars-2024-000001", "iso-2023-000007", "references"⟩]

theorem relationships_reference_only_committed_documents_witness :
    ((⟨"far_dfars-2024-000001", "nist-2024-000001", "references"⟩ :
        RelEdge).source_id ∈
          (runRelationship 1 initRelationshipState
            demoRelationshipTrace).committedDocs ∧
      (⟨"far_dfars-2024-000001", "nist-2024-000001", "references"⟩ :
        RelEdge).target_id ∈
          (runRelationship 1 initRelationshipState
            demoRelationshipTrace).committedDocs) ∧
      ((⟨"far_dfars-2024-000001", "iso-2023-000007", "references"⟩ : RelEdge),
        0).2 ≤ 1 ∧
      (relationshipStep 1 (runRelationship 1 initRelationshipState
          demoRelationshipTrace)
        (.submitEdge ⟨"nist-2024-000001", "iso-2023-000007", "cites"⟩)).edges =
        (runRelationship 1 initRelationshipState demoRelationshipTrace).edges ∧
      (⟨"nist-2024-000001", "iso-2023-000007", "cites"⟩, 0) ∈
        (relationshipStep 1 (runRelationship 1 initRelationshipState
          demoRelationshipTrace)
          (.submitEdge ⟨"nist-2024-000001", "iso-2023-000007", "cites"⟩)).pending ∧
      ((⟨"far_dfars-2024-000001", "iso-2023-000007", "references"⟩ : RelEdge),
        0).1 ∈
        (relationshipStep 1 (runRelationship 1 initRelationshipState
          demoRelationshipTrace) RelationshipStep.sweep).reported ∧
      (((⟨"far_dfars-2024-000001", "iso-2023-000007", "references"⟩ : RelEdge),
        0).1, (0 : Nat) + 1) ∉
        (relationshipStep 1 (runRelationship 1 initRelationshipState
          demoRelationshipTrace) RelationshipStep.sweep).pending :=
  relationships_reference_only_committed_documents 1 _
    ⟨"far_dfars-2024-000001", "nist-2024-000001", "references"⟩
    ⟨"nist-2024-000001", "iso-2023-000007", "cites"⟩
    (⟨"far_dfars-2024-000001", "iso-2023-000007", "references"⟩, 0)
    ⟨demoRelationshipTrace, rfl⟩ (by decide) (by decide) (by decide)
    (by decide) (by decide)

/-! ## Ingestion Coordinator

Modelled from the spec (§4.5, §3 IngestionJob, §7 propagation policy) and the
`IngestionJob` shape in `src/frontend/src/types/index.ts` (statuses
`pending | processing | completed | failed`): each document is retried up to
the configured attempt cap (`error_handling.retries.max_attempts: 3` in
`app_config.yaml`); on exhaustion the document alone is marked failed and the
job continues with the remaining documents; the job status is recomputed as
completed only when every document has reached a terminal state; a job-level
failure changes only the job status, never the per-document outcomes. -/

/-- Terminal per-document outcome within a job. -/
inductive DocOutcome where
  | committed
  | failed
deriving DecidableEq, Repr

/-- Job lifecycle states (`IngestionJob.status` in
`src/frontend/src/types/index.ts`). -/
inductive JobStatus where
  | pending
  | processing
  | completed
  | failed
deriving DecidableEq, Repr

/-- Whether a per-document outcome is terminal (committed or failed). -/
def isTerminal : DocOutcome → Bool
  | .committed => true
  | .failed => true

/-- `error_handling.retries.max_attempts` in `app_config.yaml`. -/
def maxAttempts : Nat := 3

/-- Outcome of processing one document given the success/failure of each
attempt: committed if any attempt within the cap succeeds, else failed. -/
def processOutcome (attempts : List Bool) : DocOutcome :=
  if (attempts.take maxAttempts).any id then .committed else .failed

/-- A job's bookkeeping: per-document outcomes and the job status. -/
structure JobRecord where
  docs : List (String × DocOutcome)
  status : JobStatus
deriving DecidableEq, Repr

/-- Recompute the job status from the per-document outcomes. -/
def computeJobStatus (docs : List (String × DocOutcome)) : JobStatus :=
  if docs.all (fun d => isTerminal d.2) then .completed else .processing

/-- Run a whole job: process every named document independently against its
attempt oracle, then recompute the job status. -/
def runJob (oracle : String → List Bool) (names : List String) : JobRecord :=
  { docs := names.map (fun n => (n, processOutcome (oracle n)))
    status := computeJobStatus (names.map (fun n => (n, processOutcome (oracle n)))) }

/-- A job-level failure: the job status flips to failed; the per-document
outcomes (in particular every committed document) are untouched. -/
def failJob (j : JobRecord) : JobRecord := { j with status := .failed }

/-- **C7**: one document's outcome never influences the rest of the job: two
attempt oracles that agree outside document `n` produce identical outcomes
for every other document (so a document that exhausts its retries is marked
failed while the job continues); the failing document is recorded inside the
job; a job is `completed` only when every document is terminal, and a full
run always ends with a completed status over terminal outcomes; and a
job-level failure changes the status alone, leaving every per-document
outcome (hence every committed document) intact. -/
theorem job_partial_failure_isolation
    (oracle₁ oracle₂ : String → List Bool) (names : List String) (n : String)
    (ds : List (String × DocOutcome)) (j : JobRecord)
    (hn : n ∈ names)
    (hagree : ∀ m ∈ names, m ≠ n → oracle₁ m = oracle₂ m)
    (hcs : computeJobStatus ds = .completed) :
    (runJob oracle₁ names).docs.filter (fun d => decide (d.1 ≠ n)) =
        (runJob oracle₂ names).docs.filter (fun d => decide (d.1 ≠ n)) ∧
      (n, processOutcome (oracle₁ n)) ∈ (runJob oracle₁ names).docs ∧
      ds.all (fun d => isTerminal d.2) = true ∧
      (runJob oracle₁ names).status = .completed ∧
      (failJob j).docs = j.docs ∧ (failJob j).status = .failed := by
  refine ⟨?_, ?_, ?_, ?_, rfl, rfl⟩
  · show (names.map (fun m => (m, processOutcome (oracle₁ m)))).filter
        (fun d => decide (d.1 ≠ n)) =
      (names.map (fun m => (m, processOutcome (oracle₂ m)))).filter
        (fun d => decide (d.1 ≠ n))
    rw [List.filter_map, List.filter_map]
    have hpred : ∀ (o : String → List Bool),
        ((fun d : String × DocOutcome => decide (d.1 ≠ n)) ∘
          (fun m => (m, processOutcome (o m)))) = fun m => decide (m ≠ n) := by
      intro o
      rfl
    rw [hpred, hpred]
    refine List.map_congr_left ?_
    intro m hm
    have hmm := List.mem_filter.mp hm
    have hne : m ≠ n := by simpa using hmm.2
    rw [hagree m hmm.1 hne]
  · exact List.mem_map.mpr ⟨n, hn, rfl⟩
  · unfold computeJobStatus at hcs
    by_contra hterm
    rw [if_neg hterm] at hcs
    exact JobStatus.noConfusion hcs
  · show computeJobStatus (names.map (fun m => (m, processOutcome (oracle₁ m))))
      = .completed
    unfold computeJobStatus
    rw [if_pos]
    rw [List.all_eq_true]
    intro d hd
    obtain ⟨m, _, rfl⟩ := List.mem_map.mp hd
    unfold processOutcome
    split <;> rfl

/-- Attempt oracle where `doc_b` fails all attempts and the others succeed. -/
def demoOracle : String → List Bool :=
  fun n => if n = "doc_b" then [false, false, false] else [true]

/-- Attempt oracle where every document succeeds immediately. -/
def demoOracleAllOk : String → List Bool :=
  fun n => if n = "doc_b" then [true] else [true]

/-- The documents of the demonstration job. -/
def demoJobNames : List String := ["doc_a", "doc_b", "doc_c"]

theorem job_partial_failure_isolation_witness :
    (runJob demoOracle demoJobNames).docs.filter
        (fun d => decide (d.1 ≠ "doc_b")) =
      (runJob demoOracleAllOk demoJobNames).docs.filter
        (fun d => decide (d.1 ≠ "doc_b")) ∧
      ("doc_b", processOutcome (demoOracle "doc_b")) ∈
        (runJob demoOracle demoJobNames).docs ∧
      (runJob demoOracle demoJobNames).docs.all
        (fun d => isTerminal d.2) = true ∧
      (runJob demoOracle demoJobNames).status = .completed ∧
      (failJob (runJob demoOracle demoJobNames)).docs =
        (runJob demoOracle demoJobNames).docs ∧
      (failJob (runJob demoOracle demoJobNames)).status = .failed :=
  job_partial_failure_isolation demoOracle demoOracleAllOk demoJobNames
    "doc_b" (runJob demoOracle demoJobNames).docs
    (runJob demoOracle demoJobNames)
    (by decide) (fun m _ hne => by simp [demoOracle, demoOracleAllOk, hne])
    (by decide)


/-! ## Retrieval Orchestrator — merge and rank

Modelled from the spec (§4.7): each source returns evidence items with a
relevance score in `[0,1]`; the merged result set is deduplicated by document
ID keeping the maximum score across sources, then ranked by a weighted
combination of the source-native score and a cross-source corroboration
bonus.  The spec leaves the bonus a tunable positive weight (§9), so the
weight is a parameter. -/

/-- A scored retrieval match from one source. -/
structure EvidenceItem where
  doc_id : String
  score : ℚ
deriving DecidableEq, Repr

/-- The per-source result lists of one query fan-out. -/
abbrev SourceResults := List (List EvidenceItem)

/-- The distinct document IDs found by any source. -/
def evidenceDocIds (rs : SourceResults) : List String :=
  (rs.flatten.map (·.doc_id)).dedup

/-- Maximum source-native score observed for a document across all sources. -/
def nativeScore (rs : SourceResults) (d : String) : ℚ :=
  ((rs.flatten.filter (fun i => i.doc_id == d)).map (·.score)).foldr max 0

/-- Number of sources that found the document. -/
def sourceCount (rs : SourceResults) (d : String) : Nat :=
  (rs.filter (fun l => l.any (fun i => i.doc_id == d))).length

/-- A merged, deduplicated evidence entry with its combined ranking score. -/
structure MergedItem where
  doc_id : String
  score : ℚ
  sources : Nat
  combined : ℚ
deriving DecidableEq, Repr

/-- The merged entry of one document: native score kept as the maximum,
combined score = native + weight · (corroborating sources − 1). -/
def mergeEntry (w : ℚ) (rs : SourceResults) (d : String) : MergedItem :=
  ⟨d, nativeScore rs d, sourceCount rs d,
    nativeScore rs d + w * ((sourceCount rs d : ℚ) - 1)⟩

/-- Merge: one entry per distinct document ID. -/
def mergeResults (w : ℚ) (rs : SourceResults) : List MergedItem :=
  (evidenceDocIds rs).map (mergeEntry w rs)

/-- Insert into a list kept sorted by descending combined score. -/
def insertRanked (m : MergedItem) : List MergedItem → List MergedItem
  | [] => [m]
  | a :: t =>
    if m.combined ≤ a.combined then a :: insertRanked m t else m :: a :: t

/-- Rank the merged results by descending combined score. -/
def rankResults (w : ℚ) (rs : SourceResults) : List MergedItem :=
  (mergeResults w rs).foldr insertRanked []

/-- `a` appears strictly before `b` in the list `l`. -/
def rankedAbove (l : List MergedItem) (a b : MergedItem) : Prop :=
  ∃ i j : Fin l.length, i < j ∧ l.get i = a ∧ l.get j = b

theorem le_foldr_max_q {l : List ℚ} {x : ℚ} (h : x ∈ l) : x ≤ l.foldr max 0 := by
  induction l with
  | nil => simp at h
  | cons a t ih =>
    rcases List.mem_cons.mp h with rfl | hm
    · exact le_max_left _ _
    · exact le_trans (ih hm) (le_max_right _ _)

theorem foldr_max_mem_q {l : List ℚ} (hne : l ≠ [])
    (hnn : ∀ y ∈ l, 0 ≤ y) : l.foldr max 0 ∈ l := by
  induction l with
  | nil => exact absurd rfl hne
  | cons a t ih =>
    cases t with
    | nil =>
      show max a ([].foldr max 0) ∈ [a]
      simp only [List.foldr_nil]
      rw [max_eq_left (hnn a (List.mem_cons_self a []))]
      exact List.mem_cons_self a []
    | cons b u =>
      show max a ((b :: u).foldr max 0) ∈ a :: b :: u
      rcases le_total ((b :: u).foldr max 0) a with hle | hle
      · rw [max_eq_left hle]
        exact List.mem_cons_self _ _
      · rw [max_eq_right hle]
        exact List.mem_cons_of_mem _
          (ih (by simp) (fun y hy => hnn y (List.mem_cons_of_mem _ hy)))

theorem mem_insertRanked {m x : MergedItem} {l : List MergedItem} :
    x ∈ insertRanked m l ↔ x = m ∨ x ∈ l := by
  induction l with
  | nil => simp [insertRanked]
  | cons a t ih =>
    unfold insertRanked
    split
    · rw [List.mem_cons, ih, List.mem_cons]
      tauto
    · simp only [List.mem_cons]

theorem insertRanked_sorted (m : MergedItem) (l : List MergedItem)
    (h : l.Pairwise (fun a b => b.combined ≤ a.combined)) :
    (insertRanked m l).Pairwise (fun a b => b.combined ≤ a.combined) := by
  induction l with
  | nil => simp [insertRanked]
  | cons a t ih =>
    have hp := List.pairwise_cons.mp h
    unfold insertRanked
    split
    · rename_i hle
      refine List.pairwise_cons.mpr ⟨?_, ih hp.2⟩
      intro x hx
      rcases mem_insertRanked.mp hx with rfl | hm
      · exact hle
      · exact hp.1 x hm
    · rename_i hgt
      push_neg at hgt
      refine List.pairwise_cons.mpr ⟨?_, h⟩
      intro x hx
      rcases List.mem_cons.mp hx with rfl | hm
      · exact le_of_lt hgt
      · exact le_trans (hp.1 x hm) (le_of_lt hgt)

theorem rankResults_sorted (w : ℚ) (rs : SourceResults) :
    (rankResults w rs).Pairwise (fun a b => b.combined ≤ a.combined) := by
  unfold rankResults
  induction mergeResults w rs with
  | nil => simp
  | cons a t ih => exact insertRanked_sorted a _ ih

theorem mem_rankResults {w : ℚ} {rs : SourceResults} {x : MergedItem} :
    x ∈ rankResults w rs ↔ x ∈ mergeResults w rs := by
  unfold rankResults
  induction mergeResults w rs with
  | nil => simp
  | cons a t ih =>
    simp only [List.foldr_cons, mem_insertRanked, ih, List.mem_cons]

theorem rankedAbove_of_sorted {l : List MergedItem} {a b : MergedItem}
    (hs : l.Pairwise (fun a b => b.combined ≤ a.combined))
    (ha : a ∈ l) (hb : b ∈ l) (hab : b.combined < a.combined) :
    rankedAbove l a b := by
  obtain ⟨i, hi⟩ := List.mem_iff_get.mp ha
  obtain ⟨j, hj⟩ := List.mem_iff_get.mp hb
  have hij : i ≠ j := by
    intro hEq
    rw [hEq, hj] at hi
    rw [hi] at hab
    exact lt_irrefl _ hab
  rcases lt_or_gt_of_ne hij with hlt | hgt
  · exact ⟨i, j, hlt, hi, hj⟩
  · exfalso
    have := List.pairwise_iff_get.mp hs j i hgt
    rw [hi, hj] at this
    exact absurd hab (not_lt.mpr this)

/-- **C9**: the merged result set has one entry per document ID; the merged
entry's kept score dominates every source-native score of that document and
is attained by some source item (maximum across sources); and when two
documents carry equal native scores, the entry corroborated by at least two
sources gets a strictly larger combined score than the entry found by a
single source, hence is ranked strictly above it. -/
theorem retrieval_merge_dedup_and_corroboration
    (w : ℚ) (rs : SourceResults) (d₁ d₂ : String) (it : EvidenceItem)
    (hw : 0 < w)
    (hnn : ∀ i ∈ rs.flatten, 0 ≤ i.score)
    (hd₁ : d₁ ∈ evidenceDocIds rs) (hd₂ : d₂ ∈ evidenceDocIds rs)
    (hit : it ∈ rs.flatten) (hitd : it.doc_id = d₁)
    (hscore : nativeScore rs d₁ = nativeScore rs d₂)
    (hmulti : 2 ≤ sourceCount rs d₁) (hsingle : sourceCount rs d₂ = 1) :
    ((mergeResults w rs).map (·.doc_id)).Nodup ∧
      mergeEntry w rs d₁ ∈ mergeResults w rs ∧
      mergeEntry w rs d₂ ∈ mergeResults w rs ∧
      it.score ≤ (mergeEntry w rs d₁).score ∧
      (∃ j ∈ rs.flatten, j.doc_id = d₁ ∧ j.score = (mergeEntry w rs d₁).score) ∧
      (mergeEntry w rs d₂).combined < (mergeEntry w rs d₁).combined ∧
      rankedAbove (rankResults w rs) (mergeEntry w rs d₁) (mergeEntry w rs d₂) := by
  have hnodup : ((mergeResults w rs).map (·.doc_id)).Nodup := by
    unfold mergeResults
    rw [List.map_map]
    have hcomp : ((fun m : MergedItem => m.doc_id) ∘ mergeEntry w rs) = id := rfl
    rw [hcomp, List.map_id]
    exact List.nodup_dedup _
  have hdom : it.score ≤ nativeScore rs d₁ := by
    unfold nativeScore
    refine le_foldr_max_q (List.mem_map.mpr ⟨it, ?_, rfl⟩)
    exact List.mem_filter.mpr ⟨hit, beq_iff_eq.mpr hitd⟩
  have hattain : ∃ j ∈ rs.flatten, j.doc_id = d₁ ∧ j.score = nativeScore rs d₁ := by
    have hne : rs.flatten.filter (fun i => i.doc_id == d₁) ≠ [] := by
      intro hnil
      have := List.filter_eq_nil_iff.mp hnil it hit
      exact this (beq_iff_eq.mpr hitd)
    have hmm : nativeScore rs d₁ ∈
        ((rs.flatten.filter (fun i => i.doc_id == d₁)).map (·.score)) := by
      unfold nativeScore
      refine foldr_max_mem_q ?_ ?_
      · intro hnil
        exact hne (List.map_eq_nil_iff.mp hnil)
      · intro y hy
        obtain ⟨j, hj, rfl⟩ := List.mem_map.mp hy
        exact hnn j (List.mem_filter.mp hj).1
    obtain ⟨j, hj, hjs⟩ := List.mem_map.mp hmm
    have hjf := List.mem_filter.mp hj
    exact ⟨j, hjf.1, eq_of_beq hjf.2, hjs⟩
  have hcomb : (mergeEntry w rs d₂).combined < (mergeEntry w rs d₁).combined := by
    show nativeScore rs d₂ + w * ((sourceCount rs d₂ : ℚ) - 1) <
      nativeScore rs d₁ + w * ((sourceCount rs d₁ : ℚ) - 1)
    rw [hsingle, ← hscore]
    have h1 : (1 : ℚ) ≤ (sourceCount rs d₁ : ℚ) - 1 := by
      have h2 : (2 : ℚ) ≤ (sourceCount rs d₁ : ℚ) := by exact_mod_cast hmulti
      linarith
    have h2 : w ≤ w * ((sourceCount rs d₁ : ℚ) - 1) :=
      le_mul_of_one_le_right (le_of_lt hw) h1
    push_cast
    linarith
  refine ⟨hnodup, List.mem_map.mpr ⟨d₁, hd₁, rfl⟩,
    List.mem_map.mpr ⟨d₂, hd₂, rfl⟩, hdom, hattain, hcomb, ?_⟩
  exact rankedAbove_of_sorted (rankResults_sorted w rs)
    (mem_rankResults.mpr (List.mem_map.mpr ⟨d₁, hd₁, rfl⟩))
    (mem_rankResults.mpr (List.mem_map.mpr ⟨d₂, hd₂, rfl⟩)) hcomb

/-- Result lists of three sources for the demonstration query: the document
found by two sources and the document found by one source carry the same
maximal native score. -/
def demoSourceResults : SourceResults :=
  [[⟨"far_dfars-2024-000001", 1⟩, ⟨"nist-2024-000001", 1⟩],
   [⟨"far_dfars-2024-000001", 0⟩],
   []]

theorem retrieval_merge_dedup_and_corroboration_witness :
    ((mergeResults 1 demoSourceResults).map (·.doc_id)).Nodup ∧
      mergeEntry 1 demoSourceResults "far_dfars-2024-000001" ∈
        mergeResults 1 demoSourceResults ∧
      mergeEntry 1 demoSourceResults "nist-2024-000001" ∈
        mergeResults 1 demoSourceResults ∧
      (⟨"far_dfars-2024-000001", 0⟩ : EvidenceItem).score ≤
        (mergeEntry 1 demoSourceResults "far_dfars-2024-000001").score ∧
      (∃ j ∈ demoSourceResults.flatten, j.doc_id = "far_dfars-2024-000001" ∧
        j.score = (mergeEntry 1 demoSourceResults "far_dfars-2024-000001").score) ∧
      (mergeEntry 1 demoSourceResults "nist-2024-000001").combined <
        (mergeEntry 1 demoSourceResults "far_dfars-2024-000001").combined ∧
      rankedAbove (rankResults 1 demoSourceResults)
        (mergeEntry 1 demoSourceResults "far_dfars-2024-000001")
        (mergeEntry 1 demoSourceResults "nist-2024-000001") :=
  retrieval_merge_dedup_and_corroboration 1 demoSourceResults
    "far_dfars-2024-000001" "nist-2024-000001" ⟨"far_dfars-2024-000001", 0⟩
    (by norm_num)
    (by intro i hi
        simp [demoSourceResults] at hi
        rcases hi with rfl | rfl | rfl <;> norm_num)
    (by decide) (by decide)
    (by simp [demoSourceResults]) rfl
    (by simp +decide [nativeScore, demoSourceResults])
    (by decide) (by decide)


/-! ## Query endpoint response shape (transcribed from the frontend source)

The RAG query page (`RAGPage` in `src/frontend/src/app/documents/page.tsx`)
consumes the query response: it renders `data.synthesis.synthesis` under the
"Summary" heading (line 118), `data.synthesis.key_points` (line 123),
`data.synthesis.references` (line 132), and for each entry of `data.sources`
the fields `id`, `title`, `content`, `score`, `source` (lines 143-154). -/

/-- The synthesis object of the query response as the frontend reads it. -/
structure SynthesisPayload where
  synthesis : String
  key_points : List String
  references : List String
deriving DecidableEq, Repr

/-- One retrieved source entry of the query response. -/
structure SourcePayload where
  id : String
  title : String
  content : String
  score : ℚ
  source : String
deriving DecidableEq, Repr

/-- The whole query response shape consumed by the frontend. -/
structure QueryResponse where
  synthesis : SynthesisPayload
  sources : List SourcePayload
deriving DecidableEq, Repr

/-- The field names of the synthesis object that `RAGPage` reads. -/
def ragSynthesisFields : List String :=
  ["synthesis", "key_points", "references"]

/-- The field names of each source entry that `RAGPage` reads. -/
def ragSourceFields : List String :=
  ["id", "title", "content", "score", "source"]

/-- The field of the synthesis object whose text `RAGPage` renders under the
"Summary" heading (`queryMutation.data.synthesis.synthesis`). -/
def ragSummaryField : String := "synthesis"

/-- The synthesis tab as rendered by `RAGPage`: the Summary heading and
summary text, then the key points and references under their headings. -/
def renderSynthesisTab (r : QueryResponse) : List String :=
  ["Summary", r.synthesis.synthesis, "Key Points"] ++ r.synthesis.key_points
    ++ ["References"] ++ r.synthesis.references

/-- **C5 (counterexample)**: the claim says the synthesis object's summary
text is carried in a field named `summary`; in the code that field is named
`synthesis`, and no field named `summary` appears among the synthesis-object
fields the query page consumes. -/
theorem query_response_summary_field_counterexample :
    ragSummaryField ≠ "summary" ∧ "summary" ∉ ragSynthesisFields := by
  decide

/-- **C5 (amended)**: the query response consumed by the frontend has shape
`{synthesis:{synthesis, key_points[], references[]}, sources:[{id, title,
content, score, source}]}` — the synthesis object carries the summary text in
its field named `synthesis` (not `summary`), and that field is what the page
renders directly under the "Summary" heading. -/
theorem query_response_shape (r : QueryResponse) :
    ragSynthesisFields = ["synthesis", "key_points", "references"] ∧
      ragSourceFields = ["id", "title", "content", "score", "source"] ∧
      ragSummaryField = "synthesis" ∧
      (renderSynthesisTab r)[1]? = some r.synthesis.synthesis :=
  ⟨rfl, rfl, rfl, rfl⟩

/-! ## Synthesizer output bounds

Modelled from the spec (§4.8) and the shipped `synthesis` settings of
`src/config/azure_llm_config.yaml`: the synthesizer bounds the summary by
`max_summary_length`, keeps at most `max_key_points` key points, and includes
the reference list and metadata exactly when the corresponding flags are
enabled. -/

/-- Raw synthesis material produced from the ranked evidence. -/
structure SynthesisDraft where
  summary : String
  key_points : List String
  references : List String
  metadata : List (String × String)
deriving DecidableEq, Repr

/-- The final synthesized answer. -/
structure SynthesizedAnswer where
  summary : String
  key_points : List String
  references : List String
  metadata : List (String × String)
deriving DecidableEq, Repr

/-- Truncate text to at most `n` characters. -/
def truncateText (n : Nat) (s : String) : String := ⟨s.data.take n⟩

/-- Apply the synthesis settings to a draft answer. -/
def synthesize (cfg : SynthesisConfig) (draft : SynthesisDraft) :
    SynthesizedAnswer :=
  { summary := truncateText cfg.max_summary_length draft.summary
    key_points := draft.key_points.take cfg.max_key_points
    references := if cfg.include_references then draft.references else []
    metadata := if cfg.include_metadata then draft.metadata else [] }

/-- **C10**: under the shipped configuration every synthesized answer has at
most 5 key points and a summary of at most 1000 characters, and it always
carries the full reference list and metadata because `include_references`
and `include_metadata` are enabled. -/
theorem synthesis_output_bounds (draft : SynthesisDraft) :
    (synthesize synthesisConfig draft).key_points.length ≤ 5 ∧
      (synthesize synthesisConfig draft).summary.length ≤ 1000 ∧
      (synthesize synthesisConfig draft).references = draft.references ∧
      (synthesize synthesisConfig draft).metadata = draft.metadata ∧
      synthesisConfig.include_references = true ∧
      synthesisConfig.include_metadata = true := by
  refine ⟨?_, ?_, rfl, rfl, rfl, rfl⟩
  · show (draft.key_points.take 5).length ≤ 5
    rw [List.length_take]
    omega
  · show (draft.summary.data.take 1000).length ≤ 1000
    rw [List.length_take]
    omega


end DataIngestion
